import Mathlib

set_option maxRecDepth 100000
set_option maxHeartbeats 2000000

/-!
Verification of the `sal_file.rs` CloudFile component (codec, container
format, catalog (de)serialization, and the scan / link session protocol).

Modelling conventions (shallow embedding):
* Byte sequences (`Vec<u8>`, `&[u8]`, UTF-8 contents of `String`) are
  `List Nat`; machine-width side conditions (`< 256`, `< 65536`) appear as
  hypotheses where the Rust types force them.
* `u16`/`u32` arithmetic in the codec never overflows under the guards the
  code itself enforces (components ≤ 128, bytes < 256, words < 65536), so it
  is modelled as plain `Nat` arithmetic.  The one place the Rust arithmetic
  CAN go wrong — the `u32` subtractions in `matrix_decode` — is modelled
  checked: an underflow yields the distinguished `ErrKind.panic` outcome
  (debug-build semantics; release builds would wrap).
* `String::from_utf8_lossy` followed by byte-indexed `find` / slicing /
  `split` on ASCII patterns acts on the byte sequence itself; the model
  works directly on bytes.  Rust's char-boundary slice panics that are
  reachable on valid UTF-8 input are modelled by an explicit boundary check
  (`isCharBoundary`, the same byte-range test Rust uses).
* Network I/O is abstracted: the bytes a call would read from the socket are
  explicit parameters (`resp`, `dresp`); writes are ignored.
* `std::io::Error` is modelled as its `ErrorKind` plus an optional payload,
  recording the response data only where the Rust code embeds response text
  in the error message and a claim distinguishes errors by that payload.
-/

/-- ErrorKind values used by sal_file.rs, plus `panic` for a Rust panic
(integer underflow in debug builds / out-of-bounds or non-boundary slice). -/
inductive ErrKind where
  | invalidInput
  | unsupported
  | invalidData
  | addrNotAvailable
  | connectionReset
  | permissionDenied
  | notFound
  | unexpectedEof
  | writeZero
  | panic
  | other
  deriving DecidableEq, Repr

/-- An io::Error: its kind and, when the Rust message interpolates response
data, that data. -/
structure Err where
  kind : ErrKind
  payload : Option (List Nat)
  deriving DecidableEq, Repr

deriving instance DecidableEq for Except

/-- Boolean test for the Ok case of an Except value. -/
def isOkE {ε α : Type} : Except ε α → Bool
  | .ok _ => true
  | .error _ => false

/-- Occurrence predicate: pattern `p` occurs in `s` starting at index `i`
(the Rust `str::find` match condition at byte offset `i`). -/
def occursAt (p s : List Nat) (i : Nat) : Prop :=
  p.isPrefixOf (s.drop i) = true

instance (p s : List Nat) (i : Nat) : Decidable (occursAt p s i) := by
  unfold occursAt; infer_instance

/-- Index of the first occurrence of `p` in `s`, as Rust `str::find` computes
it for an ASCII pattern (byte offset). -/
def findSub (p : List Nat) : List Nat → Option Nat
  | [] => if p.isEmpty then some 0 else none
  | x :: xs =>
    if p.isPrefixOf (x :: xs) then some 0
    else (findSub p xs).map (· + 1)

/-- Rust `str::contains` for an ASCII pattern. -/
def containsSub (p s : List Nat) : Bool :=
  (findSub p s).isSome

/-- Rust `str::split_once` for an ASCII pattern. -/
def splitOnceSub (p s : List Nat) : Option (List Nat × List Nat) :=
  match findSub p s with
  | none => none
  | some i => some (s.take i, s.drop (i + p.length))

/-- Split at the first occurrence of the single byte `c` (used for the
2-argument `splitn` forms on a one-char pattern). -/
def splitOnceByte (c : Nat) : List Nat → Option (List Nat × List Nat)
  | [] => none
  | x :: xs =>
    if x = c then some ([], xs)
    else (splitOnceByte c xs).map (fun pq => (x :: pq.1, pq.2))

/-- Rust `splitn(3, sep)` on a one-byte separator. -/
def splitn3 (c : Nat) (s : List Nat) : List (List Nat) :=
  match splitOnceByte c s with
  | none => [s]
  | some (f1, r) =>
    match splitOnceByte c r with
    | none => [f1, r]
    | some (f2, r2) => [f1, f2, r2]

/-- Rust `split(sep)` on a one-byte separator (always at least one piece). -/
def splitByte (c : Nat) : List Nat → List (List Nat)
  | [] => [[]]
  | x :: xs =>
    match splitByte c xs with
    | [] => [[]]
    | h :: t => if x = c then [] :: h :: t else (x :: h) :: t

/-- Fuel-driven worker for `splitSeq` (fuel `s.length` always suffices since
every step removes at least one byte). -/
def splitSeqGo (c : Nat) (cs : List Nat) : Nat → List Nat → List (List Nat)
  | 0, s => [s]
  | fuel + 1, s =>
    match findSub (c :: cs) s with
    | none => [s]
    | some i => s.take i :: splitSeqGo c cs fuel (s.drop (i + cs.length + 1))

/-- Rust `split(pat)` on a non-empty multi-byte pattern `c :: cs`. -/
def splitSeq (c : Nat) (cs : List Nat) (s : List Nat) : List (List Nat) :=
  splitSeqGo c cs s.length s

/-- Rust `str::is_char_boundary` as the byte-range test Rust implements:
index equal to the length, or pointing at a byte outside `0x80..0xC0`. -/
def isCharBoundary (s : List Nat) (i : Nat) : Bool :=
  if i = s.length then true
  else
    match s.drop i with
    | [] => false
    | b :: _ => b < 128 || 192 ≤ b

/-- The ASCII whitespace bytes, i.e. the chars below 0x80 accepted by Rust
`char::is_whitespace` (NUL is NOT among them). -/
def wsByte (b : Nat) : Bool :=
  b = 9 || b = 10 || b = 11 || b = 12 || b = 13 || b = 32

/-- Rust `str::trim` restricted to ASCII content: drop whitespace bytes from
both ends. -/
def trimAscii (l : List Nat) : List Nat :=
  ((l.dropWhile wsByte).reverse.dropWhile wsByte).reverse

/-- Zero padding up to the 64-byte base region for a joined length of n. -/
def padTo64 (n : Nat) : List Nat := List.replicate (64 - n) 0

/-- The 4-byte passkey `&[u8; 4]`, read as the matrix [[a,b],[c,d]]. -/
structure PassKey where
  a : Nat
  b : Nat
  c : Nat
  d : Nat
  deriving DecidableEq, Repr

/-- The passkey as the 4 raw bytes embedded in a container header. -/
def pkBytes (pk : PassKey) : List Nat :=
  [pk.a, pk.b, pk.c, pk.d]

/-- The guards both `matrix_encode` and `matrix_decode` enforce: every
component at most 128 and a positive determinant. -/
def pkGuard (pk : PassKey) : Prop :=
  pk.a ≤ 128 ∧ pk.b ≤ 128 ∧ pk.c ≤ 128 ∧ pk.d ≤ 128 ∧ pk.b * pk.c < pk.a * pk.d

instance (pk : PassKey) : Decidable (pkGuard pk) := by
  unfold pkGuard; infer_instance

/-- The pair loop of `matrix_encode`: each byte pair (p0,p1) becomes the two
words a*p0+b*p1 and c*p0+d*p1; a trailing lone byte becomes (a*p, c*p). -/
def encodePairs (a b c d : Nat) : List Nat → List Nat
  | [] => []
  | [p] => [a * p, c * p]
  | p0 :: p1 :: rest =>
    (a * p0 + b * p1) :: (c * p0 + d * p1) :: encodePairs a b c d rest

/-- CloudFile::matrix_encode. -/
def matrix_encode (pk : PassKey) (data : List Nat) : Except Err (List Nat) :=
  if pk.a > 128 || pk.b > 128 || pk.c > 128 || pk.d > 128 then
    .error ⟨.invalidInput, none⟩
  else if pk.a * pk.d ≤ pk.b * pk.c then
    .error ⟨.invalidInput, none⟩
  else
    .ok (encodePairs pk.a pk.b pk.c pk.d data)

/-- The pair loop of `matrix_decode`.  The two `u32` subtractions are
modelled checked: an underflow is the `panic` outcome (debug semantics).
The `as u8` casts truncate, hence the `% 256`. -/
def decodePairs (a b c d val : Nat) : List Nat → Except Err (List Nat)
  | [] => .ok []
  | [_] => .ok []
  | w0 :: w1 :: rest =>
    if d * w0 < b * w1 then .error ⟨.panic, none⟩
    else if a * w1 < c * w0 then .error ⟨.panic, none⟩
    else
      (decodePairs a b c d val rest).map
        (fun tail =>
          (d * w0 - b * w1) / val % 256 :: (a * w1 - c * w0) / val % 256 :: tail)

/-- CloudFile::matrix_decode. -/
def matrix_decode (pk : PassKey) (data : List Nat) : Except Err (List Nat) :=
  if pk.a > 128 || pk.b > 128 || pk.c > 128 || pk.d > 128 then
    .error ⟨.invalidInput, none⟩
  else if pk.a * pk.d ≤ pk.b * pk.c then
    .error ⟨.invalidInput, none⟩
  else if data.length % 2 = 1 then
    .error ⟨.invalidInput, none⟩
  else
    decodePairs pk.a pk.b pk.c pk.d (pk.a * pk.d - pk.b * pk.c) data

/-- CloudFile::sixteen_to_eight: every word contributes its high then low
byte (divmod 256), a trailing lone word included. -/
def sixteen_to_eight : List Nat → List Nat
  | [] => []
  | [w] => [w / 256, w % 256]
  | w0 :: w1 :: rest =>
    w0 / 256 :: w0 % 256 :: w1 / 256 :: w1 % 256 :: sixteen_to_eight rest

/-- CloudFile::eight_to_sixteen: byte pairs combine big-endian; a trailing
lone byte becomes one word equal to that byte. -/
def eight_to_sixteen : List Nat → List Nat
  | [] => []
  | [b] => [b]
  | b0 :: b1 :: rest => (256 * b0 + b1) :: eight_to_sixteen rest

/-- The two 4-byte magic constants and the fixed trailer of the container
header. -/
def magicA : List Nat := [3, 3, 4, 21]

/-- Second magic field. -/
def magicB : List Nat := [7, 23, 10, 8]

/-- Fixed trailer bytes 12..16 of the header. -/
def trailerBytes : List Nat := [25, 0, 0, 3]

/-- Passkey extracted from container bytes 8..12 (`raw.chunks(4)` third
chunk; callers have already checked the length). -/
def pkOf (raw : List Nat) : PassKey :=
  ⟨raw.getD 8 0, raw.getD 9 0, raw.getD 10 0, raw.getD 11 0⟩

/-- Which remote host the one live TcpStream targets. -/
inductive StreamHost where
  | scanHost
  | linkHost
  deriving DecidableEq, Repr

/-- The `Stream` control enum passed to set_stream. -/
inductive StreamSel where
  | scanSel
  | linkSel
  | noneSel
  deriving DecidableEq, Repr

/-- The CloudFile struct.  `inner` is the serialized container, `stream` the
optional live connection (tagged by host), the three credentials and the
filemap as in the source.  Strings are UTF-8 byte lists. -/
structure CloudFile where
  inner : List Nat
  stream : Option StreamHost
  uid : List Nat
  token : List Nat
  dirid : List Nat
  filemap : List (List Nat × List Nat)
  deriving DecidableEq, Repr

namespace CloudFile

/-- The base region: uid, token, dirid joined by 0x1B, then zero-padded
(`while data.len() < 64 { data.push(0) }`). -/
def baseRegion (uid token dirid : List Nat) : List Nat :=
  (uid ++ 27 :: token ++ 27 :: dirid) ++
    List.replicate (64 - (uid ++ 27 :: token ++ 27 :: dirid).length) 0

/-- The list region `update_inner` appends: each entry as name ++ 0x1A ++
objid, entries joined by 0x1B. -/
def listRegion (fm : List (List Nat × List Nat)) : List Nat :=
  List.intercalate [27] (fm.map (fun e => e.1 ++ 26 :: e.2))

/-- Assemble header plus encoded payload from passkey and plaintext (the
serialization step shared by `new` and `update_inner`). -/
def assembleContainer (pk : PassKey) (ws : List Nat) : List Nat :=
  magicA ++ magicB ++ pkBytes pk ++ trailerBytes ++ sixteen_to_eight ws

/-- CloudFile::new. -/
def new (uid token dirid : List Nat) (pk : PassKey) : Except Err CloudFile :=
  (matrix_encode pk (baseRegion uid token dirid)).map fun ws =>
    { inner := assembleContainer pk ws
      stream := none
      uid := uid
      token := token
      dirid := dirid
      filemap := [] }

/-- Parse the list region: `split('\u{1B}')` then, per piece,
`splitn(2, '\u{1A}')` must give exactly a name and an objid. -/
def parseEntries : List (List Nat) → Except Err (List (List Nat × List Nat))
  | [] => .ok []
  | v :: rest =>
    match splitOnceByte 26 v with
    | none => .error ⟨.invalidData, none⟩
    | some (name, objid) =>
      (parseEntries rest).map (fun t => (name, objid) :: t)

/-- CloudFile::from_raw. -/
def from_raw (raw : List Nat) : Except Err CloudFile :=
  if raw.length < 144 then .error ⟨.invalidInput, none⟩
  else if raw.take 4 != magicA && (raw.drop 4).take 4 != magicB then
    .error ⟨.unsupported, none⟩
  else
    (matrix_decode (pkOf raw) (eight_to_sixteen (raw.drop 16))).bind fun data =>
      if data.length < 64 then .error ⟨.panic, none⟩
      else
        (if (data.drop 64).isEmpty then Except.ok []
         else parseEntries (splitByte 27 (data.drop 64))).map fun fm =>
          { inner := raw, stream := none,
            uid := trimAscii ((splitn3 27 (data.take 64)).getD 0 []),
            token := trimAscii ((splitn3 27 (data.take 64)).getD 1 []),
            dirid := trimAscii ((splitn3 27 (data.take 64)).getD 2 []),
            filemap := fm }

/-- The parse step of the container format as the spec describes it (the
front half of from_raw): length check, magic check, passkey from bytes
8..12, then eight_to_sixteen and matrix_decode on bytes 16... -/
def parseContainer (raw : List Nat) : Except Err (PassKey × List Nat) :=
  if raw.length < 144 then .error ⟨.invalidInput, none⟩
  else if raw.take 4 != magicA && (raw.drop 4).take 4 != magicB then
    .error ⟨.unsupported, none⟩
  else
    (matrix_decode (pkOf raw) (eight_to_sixteen (raw.drop 16))).map
      (fun pt => (pkOf raw, pt))

/-- The assemble step for an arbitrary plaintext: the 16-byte header
followed by sixteen_to_eight of matrix_encode (as new and update_inner
build it). -/
def assemblePlain (pk : PassKey) (pt : List Nat) : Except Err (List Nat) :=
  (matrix_encode pk pt).map (assembleContainer pk)

/-- CloudFile::update_inner: re-serialize credentials + filemap with the
passkey taken from the existing container header. -/
def update_inner (s : CloudFile) : Except Err CloudFile :=
  if s.inner.length < 144 then .error ⟨.invalidInput, none⟩
  else
    (matrix_encode (pkOf s.inner)
        (baseRegion s.uid s.token s.dirid ++ listRegion s.filemap)).map
      fun ws => { s with inner := assembleContainer (pkOf s.inner) ws }

/-- CloudFile::set_stream (connection success abstracted). -/
def set_stream (s : CloudFile) (sel : StreamSel) : CloudFile :=
  match sel with
  | .scanSel => { s with stream := some .scanHost }
  | .linkSel => { s with stream := some .linkHost }
  | .noneSel => { s with stream := none }

/-- Pattern bytes for "\r\n\r\n". -/
def crlf2 : List Nat := [13, 10, 13, 10]

/-- Pattern bytes for the "\"result\":true" marker. -/
def resultTruePat : List Nat := [34, 114, 101, 115, 117, 108, 116, 34, 58, 116, 114, 117, 101]

/-- Pattern bytes for the "\"data\":[]," marker. -/
def dataEmptyPat : List Nat := [34, 100, 97, 116, 97, 34, 58, 91, 93, 44]

/-- Pattern bytes for "\"objectId\"". -/
def objectIdPat : List Nat := [34, 111, 98, 106, 101, 99, 116, 73, 100, 34]

/-- Pattern bytes for "\"name\"". -/
def namePat : List Nat := [34, 110, 97, 109, 101, 34]

/-- Pattern bytes for "\"residstr\"". -/
def residPat : List Nat := [34, 114, 101, 115, 105, 100, 115, 116, 114, 34]

/-- Pattern bytes for "\",\"" (quote comma quote). -/
def qcqPat : List Nat := [34, 44, 34]

/-- Pattern bytes for "\"success\":false". -/
def successFalsePat : List Nat := [34, 115, 117, 99, 99, 101, 115, 115, 34, 58, 102, 97, 108, 115, 101]

/-- Pattern bytes for "vardownloadUrl='" (the space was removed by
`replace(' ', "")`). -/
def linkPat : List Nat := [118, 97, 114, 100, 111, 119, 110, 108, 111, 97, 100, 85, 114, 108, 61, 39]

/-- Pattern bytes for the "';\r\n" terminator after the download URL. -/
def linkTermPat : List Nat := [39, 59, 13, 10]

/-- UTF-8 bytes of the Chinese not-found marker in get_link. -/
def nfMarkerPat : List Nat :=
  [232, 142, 183, 229, 143, 150, 228, 184, 139, 232, 189, 189,
   229, 156, 176, 229, 157, 128, 229, 164, 177, 232, 180, 165]

/-- A field extraction in the scan record loop: find `pat`, slice
`&file[o+skip..]` (length / char-boundary panic modelled), then take up to
the next "\",\"". -/
def extractField (pat : List Nat) (skip : Nat) (file : List Nat) :
    Except Err (List Nat) :=
  match findSub pat file with
  | none => .error ⟨.connectionReset, none⟩
  | some o =>
    if isCharBoundary file (o + skip) then
      let f2 := file.drop (o + skip)
      match findSub qcqPat f2 with
      | none => .error ⟨.connectionReset, none⟩
      | some o2 => .ok (f2.take o2)
    else .error ⟨.panic, none⟩

/-- The per-record loop of scan: objectId, then name, then the push of
(name, objid), then residstr.  On an error the pushes made so far stay (the
Rust loop mutates `self.filemap` in place). -/
def scanRecords :
    List (List Nat) → List (List Nat × List Nat) → List (List Nat) →
    List (List Nat × List Nat) × List (List Nat) × Option Err
  | [], fm, resid => (fm, resid, none)
  | f :: rest, fm, resid =>
    match extractField objectIdPat 12 f with
    | .error e => (fm, resid, some e)
    | .ok objid =>
      match extractField namePat 8 f with
      | .error e => (fm, resid, some e)
      | .ok name =>
        match extractField residPat 12 f with
        | .error e => (fm ++ [(name, objid)], resid, some e)
        | .ok r => scanRecords rest (fm ++ [(name, objid)]) (resid ++ [r])

/-- The record-extraction phase of scan on the response body: either the
empty data list (no records), or the slice between the first "[{" and the
first "}]" split on "},{". -/
def scanParse (fm : List (List Nat × List Nat)) (data : List Nat) :
    List (List Nat × List Nat) × List (List Nat) × Option Err :=
  if containsSub dataEmptyPat data then (fm, [], none)
  else
    match findSub [91, 123] data with
    | none => (fm, [], some ⟨.connectionReset, none⟩)
    | some st =>
      match findSub [125, 93] data with
      | none => (fm, [], some ⟨.connectionReset, none⟩)
      | some en =>
        if st + 2 ≤ en then
          scanRecords (splitSeq 125 [44, 123] ((data.take en).drop (st + 2))) fm []
        else (fm, [], some ⟨.panic, none⟩)

/-- CloudFile::delete: acknowledge the residual ids.  `dresp` is the bytes
the delete request would read back; not read at all when `resid` is empty. -/
def delete (_s : CloudFile) (resid : List (List Nat)) (dresp : List Nat) :
    Except Err Bool :=
  if resid.length = 0 then .ok true
  else
    match splitOnceSub crlf2 dresp with
    | none => .error ⟨.connectionReset, none⟩
    | some (_, data) =>
      if containsSub resultTruePat data then
        if containsSub successFalsePat data then .ok false else .ok true
      else .error ⟨.permissionDenied, some data⟩

/-- CloudFile::scan.  `resp` / `dresp` are the bytes read for the listing
and the delete acknowledgment.  Returns the mutated session and the result
(mirroring `&mut self`). -/
def scan (s : CloudFile) (resp dresp : List Nat) :
    CloudFile × Except Err Nat :=
  match s.stream with
  | none => (s, .error ⟨.addrNotAvailable, none⟩)
  | some _ =>
    match splitOnceSub crlf2 resp with
    | none => (s, .error ⟨.unexpectedEof, none⟩)
    | some (_, data) =>
      let timer := s.filemap.length
      if containsSub resultTruePat data then
        match scanParse s.filemap data with
        | (fm, _, some e) => ({ s with filemap := fm }, .error e)
        | (fm, resid, none) =>
          let s1 := { s with filemap := fm }
          match delete s1 resid dresp with
          | .error e => (s1, .error e)
          | .ok _ =>
            match update_inner s1 with
            | .error e => (s1, .error e)
            | .ok s2 =>
              if s2.filemap.length = timer then
                ({ s2 with stream := none }, .error ⟨.writeZero, none⟩)
              else (s2, .ok (s2.filemap.length - timer))
      else (s, .error ⟨.permissionDenied, some data⟩)

/-- CloudFile::get_link.  `resp` is the bytes the request would read back;
the session is returned unchanged (the Rust method takes `&self`). -/
def get_link (s : CloudFile) (resp : List Nat) :
    CloudFile × Except Err (List Nat) :=
  match s.stream with
  | none => (s, .error ⟨.addrNotAvailable, none⟩)
  | some _ =>
    match findSub linkPat (resp.filter (fun b => b != 32)) with
    | some x =>
      match splitOnceSub linkTermPat
          ((resp.filter (fun b => b != 32)).drop (x + 16)) with
      | some (url, _) => (s, .ok url)
      | none => (s, .error ⟨.connectionReset, none⟩)
    | none =>
      if containsSub nfMarkerPat (resp.filter (fun b => b != 32)) then
        (s, .error ⟨.notFound, none⟩)
      else
        match splitOnceSub crlf2 (resp.filter (fun b => b != 32)) with
        | some (_, body) => (s, .error ⟨.unexpectedEof, some body⟩)
        | none => (s, .error ⟨.unexpectedEof, none⟩)

end CloudFile

/-- The identity passkey matrix [[1,0],[0,1]]. -/
def pk1 : PassKey := ⟨1, 0, 0, 1⟩

/-- The container CloudFile::new builds from three empty credentials and
passkey [1,0,0,1]: header, then the encoded 64-byte base region
(27, 27, then 62 zero bytes). -/
def goodInner : List Nat :=
  [3, 3, 4, 21, 7, 23, 10, 8, 1, 0, 0, 1, 25, 0, 0, 3, 0, 27, 0, 27] ++
    List.replicate 124 0

/-- `goodInner` with its first magic byte corrupted (3 ↦ 9); the second
magic field is intact. -/
def c2raw : List Nat :=
  [9, 3, 4, 21, 7, 23, 10, 8, 1, 0, 0, 1, 25, 0, 0, 3, 0, 27, 0, 27] ++
    List.replicate 124 0

/-- A well-formed session holding `goodInner`, connected to the scan host. -/
def scanSession : CloudFile :=
  { inner := goodInner, stream := some .scanHost,
    uid := [], token := [], dirid := [], filemap := [] }

/-- A well-formed session holding `goodInner`, connected to the link host. -/
def linkSession : CloudFile :=
  { inner := goodInner, stream := some .linkHost,
    uid := [], token := [], dirid := [], filemap := [] }

/-- Listing response carrying five complete records (exceeding the
requested page size of 4): the header, then
a JSON body with result true and records A1..A5 / N1..N5 / R1..R5. -/
def c6resp : List Nat :=
  [72, 84, 84, 80, 47, 49, 46, 49, 32, 50, 48, 48, 32, 79, 75, 13, 10, 13,
   10, 123, 34, 114, 101, 115, 117, 108, 116, 34, 58, 116, 114, 117, 101,
   44, 34, 100, 97, 116, 97, 34, 58, 91, 123, 34, 111, 98, 106, 101, 99,
   116, 73, 100, 34, 58, 34, 65, 49, 34, 44, 34, 110, 97, 109, 101, 34, 58,
   34, 78, 49, 34, 44, 34, 114, 101, 115, 105, 100, 115, 116, 114, 34, 58,
   34, 82, 49, 34, 44, 34, 122, 34, 58, 34, 48, 34, 125, 44, 123, 34, 111,
   98, 106, 101, 99, 116, 73, 100, 34, 58, 34, 65, 50, 34, 44, 34, 110, 97,
   109, 101, 34, 58, 34, 78, 50, 34, 44, 34, 114, 101, 115, 105, 100, 115,
   116, 114, 34, 58, 34, 82, 50, 34, 44, 34, 122, 34, 58, 34, 48, 34, 125,
   44, 123, 34, 111, 98, 106, 101, 99, 116, 73, 100, 34, 58, 34, 65, 51, 34,
   44, 34, 110, 97, 109, 101, 34, 58, 34, 78, 51, 34, 44, 34, 114, 101, 115,
   105, 100, 115, 116, 114, 34, 58, 34, 82, 51, 34, 44, 34, 122, 34, 58, 34,
   48, 34, 125, 44, 123, 34, 111, 98, 106, 101, 99, 116, 73, 100, 34, 58,
   34, 65, 52, 34, 44, 34, 110, 97, 109, 101, 34, 58, 34, 78, 52, 34, 44,
   34, 114, 101, 115, 105, 100, 115, 116, 114, 34, 58, 34, 82, 52, 34, 44,
   34, 122, 34, 58, 34, 48, 34, 125, 44, 123, 34, 111, 98, 106, 101, 99,
   116, 73, 100, 34, 58, 34, 65, 53, 34, 44, 34, 110, 97, 109, 101, 34, 58,
   34, 78, 53, 34, 44, 34, 114, 101, 115, 105, 100, 115, 116, 114, 34, 58,
   34, 82, 53, 34, 44, 34, 122, 34, 58, 34, 48, 34, 125, 93, 125]

/-- Listing response with result true and an empty data list. -/
def c5resp : List Nat :=
  [72, 84, 84, 80, 47, 49, 46, 49, 32, 50, 48, 48, 32, 79, 75, 13, 10, 13,
   10, 123, 34, 114, 101, 115, 117, 108, 116, 34, 58, 116, 114, 117, 101,
   44, 34, 100, 97, 116, 97, 34, 58, 91, 93, 44, 34, 120, 34, 58, 49, 125]

/-- Delete-acknowledgment response with result true. -/
def c6dresp : List Nat :=
  [72, 84, 84, 80, 47, 49, 46, 49, 32, 50, 48, 48, 32, 79, 75, 13, 10, 13,
   10, 123, 34, 114, 101, 115, 117, 108, 116, 34, 58, 116, 114, 117, 101,
   125]

/-- Download response whose body carries a var downloadUrl assignment for
the URL bytes of `c7url`. -/
def c7resp : List Nat :=
  [72, 84, 84, 80, 47, 49, 46, 49, 32, 50, 48, 48, 32, 79, 75, 13, 10, 13,
   10, 102, 111, 111, 13, 10, 118, 97, 114, 32, 100, 111, 119, 110, 108,
   111, 97, 100, 85, 114, 108, 61, 39, 104, 116, 116, 112, 58, 47, 47, 97,
   47, 98, 39, 59, 13, 10, 98, 97, 114]

/-- The URL bytes inside `c7resp`. -/
def c7url : List Nat :=
  [104, 116, 116, 112, 58, 47, 47, 97, 47, 98]

theorem occursAt_append_mid (p pre suf : List Nat) :
    occursAt p (pre ++ p ++ suf) pre.length := by
  unfold occursAt
  rw [List.append_assoc, List.drop_left]
  exact List.isPrefixOf_iff_prefix.mpr (List.prefix_append p suf)

theorem occursAt_cons_succ (p : List Nat) (x : Nat) (xs : List Nat) (n : Nat) :
    occursAt p (x :: xs) (n + 1) ↔ occursAt p xs n := by
  simp [occursAt]

theorem findSub_isSome_of_occursAt (p s : List Nat) (i : Nat)
    (h : occursAt p s i) : (findSub p s).isSome = true := by
  induction s generalizing i with
  | nil =>
    cases p with
    | nil => simp [findSub]
    | cons y ys => simp [occursAt, List.isPrefixOf] at h
  | cons x xs ih =>
    unfold findSub
    by_cases hpre : p.isPrefixOf (x :: xs) = true
    · rw [if_pos hpre]
      simp
    · rw [if_neg hpre]
      cases i with
      | zero => exact absurd h hpre
      | succ n =>
        have h2 : occursAt p xs n := (occursAt_cons_succ p x xs n).mp h
        have h3 := ih n h2
        cases hf : findSub p xs with
        | none => rw [hf] at h3; simp at h3
        | some j => simp [hf]

theorem findSub_eq_some_iff (p s : List Nat) (i : Nat) :
    findSub p s = some i ↔ occursAt p s i ∧ ∀ j < i, ¬ occursAt p s j := by
  induction s generalizing i with
  | nil =>
    cases p with
    | nil =>
      constructor
      · intro h
        have hi : 0 = i := by simpa [findSub] using h
        subst hi
        exact ⟨by simp [occursAt, List.isPrefixOf], by omega⟩
      · rintro ⟨-, hmin⟩
        have hi : i = 0 := by
          by_contra hne
          exact hmin 0 (by omega) (by simp [occursAt, List.isPrefixOf])
        subst hi
        simp [findSub]
    | cons y ys =>
      constructor
      · intro h
        simp [findSub] at h
      · rintro ⟨hocc, -⟩
        simp [occursAt, List.isPrefixOf] at hocc
  | cons x xs ih =>
    unfold findSub
    by_cases hpre : p.isPrefixOf (x :: xs) = true
    · rw [if_pos hpre]
      simp only [Option.some.injEq]
      constructor
      · rintro rfl
        exact ⟨hpre, by omega⟩
      · rintro ⟨hocc, hmin⟩
        cases i with
        | zero => rfl
        | succ n => exact absurd hpre (hmin 0 (by omega))
    · rw [if_neg hpre]
      cases hf : findSub p xs with
      | none =>
        constructor
        · intro h
          cases h
        · rintro ⟨hocc, -⟩
          exfalso
          cases i with
          | zero => exact hpre hocc
          | succ n =>
            have h2 : occursAt p xs n := (occursAt_cons_succ p x xs n).mp hocc
            have h3 := findSub_isSome_of_occursAt p xs n h2
            rw [hf] at h3
            simp at h3
      | some j =>
        simp only [Option.map_some', Option.some.injEq]
        obtain ⟨hocc, hmin⟩ := (ih j).mp hf
        constructor
        · rintro rfl
          refine ⟨(occursAt_cons_succ p x xs j).mpr hocc, ?_⟩
          intro k hk
          cases k with
          | zero => exact fun hc => hpre hc
          | succ m =>
            exact fun hc =>
              hmin m (by omega) ((occursAt_cons_succ p x xs m).mp hc)
        · rintro ⟨hocc2, hmin2⟩
          cases i with
          | zero => exact absurd hocc2 hpre
          | succ n =>
            have hn : findSub p xs = some n :=
              (ih n).mpr ⟨(occursAt_cons_succ p x xs n).mp hocc2,
                fun m hm hc =>
                  hmin2 (m + 1) (by omega) ((occursAt_cons_succ p x xs m).mpr hc)⟩
            rw [hf] at hn
            injection hn with hn2
            omega

theorem findSub_eq_none_iff (p s : List Nat) :
    findSub p s = none ↔ ∀ i, ¬ occursAt p s i := by
  constructor
  · intro h i hocc
    have h2 := findSub_isSome_of_occursAt p s i hocc
    rw [h] at h2
    simp at h2
  · intro h
    cases hf : findSub p s with
    | none => rfl
    | some i => exact absurd ((findSub_eq_some_iff p s i).mp hf).1 (h i)

theorem containsSub_iff (p s : List Nat) :
    containsSub p s = true ↔ ∃ i, occursAt p s i := by
  unfold containsSub
  cases hf : findSub p s with
  | none =>
    simp only [Option.isSome_none, Bool.false_eq_true, false_iff, not_exists]
    exact (findSub_eq_none_iff p s).mp hf
  | some i =>
    simp only [Option.isSome_some, true_iff]
    exact ⟨i, ((findSub_eq_some_iff p s i).mp hf).1⟩

theorem findSub_first (p pre suf : List Nat)
    (hfresh : ∀ j < pre.length, ¬ occursAt p (pre ++ p ++ suf) j) :
    findSub p (pre ++ p ++ suf) = some pre.length :=
  (findSub_eq_some_iff p _ pre.length).mpr ⟨occursAt_append_mid p pre suf, hfresh⟩

theorem splitOnceSub_first (p pre suf : List Nat)
    (hfresh : ∀ j < pre.length, ¬ occursAt p (pre ++ p ++ suf) j) :
    splitOnceSub p (pre ++ p ++ suf) = some (pre, suf) := by
  have ht : (pre ++ p ++ suf).take pre.length = pre := by
    rw [List.append_assoc]
    exact List.take_left pre (p ++ suf)
  have hd : (pre ++ p ++ suf).drop (pre.length + p.length) = suf := by
    have h2 : pre.length + p.length = (pre ++ p).length := (List.length_append pre p).symm
    rw [h2]
    exact List.drop_left (pre ++ p) suf
  unfold splitOnceSub
  rw [findSub_first p pre suf hfresh]
  show some ((pre ++ p ++ suf).take pre.length,
    (pre ++ p ++ suf).drop (pre.length + p.length)) = some (pre, suf)
  rw [ht, hd]

theorem splitOnceByte_of_not_mem (c : Nat) (l : List Nat) (h : c ∉ l) :
    splitOnceByte c l = none := by
  induction l with
  | nil => rfl
  | cons x xs ih =>
    unfold splitOnceByte
    rw [if_neg (by simp at h; omega)]
    rw [ih (by simp at h; exact h.2)]
    rfl

theorem splitOnceByte_append (c : Nat) (x y : List Nat) (h : c ∉ x) :
    splitOnceByte c (x ++ c :: y) = some (x, y) := by
  induction x with
  | nil =>
    simp [splitOnceByte]
  | cons a as ih =>
    have ha : a ≠ c := by simp at h; omega
    have has : c ∉ as := by simp at h; exact h.2
    rw [List.cons_append]
    simp only [splitOnceByte]
    rw [if_neg ha, ih has]
    rfl

theorem matrix_encode_ok (pk : PassKey) (data : List Nat) (h : pkGuard pk) :
    matrix_encode pk data = .ok (encodePairs pk.a pk.b pk.c pk.d data) := by
  obtain ⟨ha, hb, hc, hd, hdet⟩ := h
  unfold matrix_encode
  rw [if_neg (by simp only [Bool.or_eq_true, decide_eq_true_eq, not_or]; omega),
    if_neg (by omega)]

theorem encodePairs_length (a b c d : Nat) (l : List Nat) :
    (encodePairs a b c d l).length =
      if l.length % 2 = 0 then l.length else l.length + 1 := by
  induction l using encodePairs.induct a b c d with
  | case1 => simp [encodePairs]
  | case2 p => simp [encodePairs]
  | case3 p0 p1 rest ih =>
    unfold encodePairs
    simp only [List.length_cons, ih]
    rcases Nat.even_or_odd rest.length with he | ho
    · have h0 : rest.length % 2 = 0 := Nat.even_iff.mp he
      rw [if_pos h0, if_pos (by omega)]
    · have h1 : rest.length % 2 = 1 := Nat.odd_iff.mp ho
      rw [if_neg (by omega), if_neg (by omega)]

theorem encodePairs_length_even (a b c d : Nat) (l : List Nat) :
    (encodePairs a b c d l).length % 2 = 0 := by
  rw [encodePairs_length]
  rcases Nat.even_or_odd l.length with he | ho
  · have h0 : l.length % 2 = 0 := Nat.even_iff.mp he
    rw [if_pos h0]
    omega
  · have h1 : l.length % 2 = 1 := Nat.odd_iff.mp ho
    rw [if_neg (by omega)]
    omega

theorem decodePairs_encodePairs (a b c d : Nat) (l : List Nat)
    (hdet : b * c < a * d) (hl : ∀ x ∈ l, x < 256) :
    decodePairs a b c d (a * d - b * c) (encodePairs a b c d l) =
      .ok (if l.length % 2 = 0 then l else l ++ [0]) := by
  induction l using encodePairs.induct a b c d with
  | case1 => simp [encodePairs, decodePairs]
  | case2 p =>
    have hp : p < 256 := hl p (by simp)
    unfold encodePairs decodePairs
    have h1 : ¬ d * (a * p) < b * (c * p) := by
      have : b * c * p ≤ a * d * p := Nat.mul_le_mul_right p (Nat.le_of_lt hdet)
      have e1 : d * (a * p) = a * d * p := by ring
      have e2 : b * (c * p) = b * c * p := by ring
      omega
    have h2 : ¬ a * (c * p) < c * (a * p) := by
      have e1 : a * (c * p) = c * (a * p) := by ring
      omega
    rw [if_neg h1, if_neg h2]
    have e3 : d * (a * p) - b * (c * p) = (a * d - b * c) * p := by
      have e1 : d * (a * p) = a * d * p := by ring
      have e2 : b * (c * p) = b * c * p := by ring
      have e4 : (a * d - b * c) * p = a * d * p - b * c * p := Nat.sub_mul _ _ _
      have : b * c * p ≤ a * d * p := Nat.mul_le_mul_right p (Nat.le_of_lt hdet)
      omega
    have e5 : a * (c * p) - c * (a * p) = 0 := by
      have e1 : a * (c * p) = c * (a * p) := by ring
      omega
    rw [e3, e5]
    rw [Nat.mul_div_cancel_left p (by omega)]
    rw [Nat.zero_div, Nat.mod_eq_of_lt hp]
    rfl
  | case3 p0 p1 rest ih =>
    have hp0 : p0 < 256 := hl p0 (by simp)
    have hp1 : p1 < 256 := hl p1 (by simp)
    have hrest : ∀ x ∈ rest, x < 256 := fun x hx => hl x (by simp [hx])
    unfold encodePairs decodePairs
    have key1 : d * (a * p0 + b * p1) - b * (c * p0 + d * p1) =
        (a * d - b * c) * p0 ∧ ¬ d * (a * p0 + b * p1) < b * (c * p0 + d * p1) := by
      have e1 : d * (a * p0 + b * p1) = a * d * p0 + b * d * p1 := by ring
      have e2 : b * (c * p0 + d * p1) = b * c * p0 + b * d * p1 := by ring
      have e4 : (a * d - b * c) * p0 = a * d * p0 - b * c * p0 := Nat.sub_mul _ _ _
      have hm : b * c * p0 ≤ a * d * p0 := Nat.mul_le_mul_right p0 (Nat.le_of_lt hdet)
      constructor
      · omega
      · omega
    have key2 : a * (c * p0 + d * p1) - c * (a * p0 + b * p1) =
        (a * d - b * c) * p1 ∧ ¬ a * (c * p0 + d * p1) < c * (a * p0 + b * p1) := by
      have e1 : a * (c * p0 + d * p1) = a * c * p0 + a * d * p1 := by ring
      have e2 : c * (a * p0 + b * p1) = a * c * p0 + b * c * p1 := by ring
      have e4 : (a * d - b * c) * p1 = a * d * p1 - b * c * p1 := Nat.sub_mul _ _ _
      have hm : b * c * p1 ≤ a * d * p1 := Nat.mul_le_mul_right p1 (Nat.le_of_lt hdet)
      constructor
      · omega
      · omega
    rw [if_neg key1.2, if_neg key2.2, ih hrest]
    rw [key1.1, key2.1]
    rw [Nat.mul_div_cancel_left p0 (by omega), Nat.mul_div_cancel_left p1 (by omega)]
    rw [Nat.mod_eq_of_lt hp0, Nat.mod_eq_of_lt hp1]
    show Except.ok (p0 :: p1 :: (if rest.length % 2 = 0 then rest else rest ++ [0])) = _
    rcases Nat.even_or_odd rest.length with he | ho
    · have h0 : rest.length % 2 = 0 := Nat.even_iff.mp he
      rw [if_pos h0, if_pos (by simp only [List.length_cons]; omega)]
    · have h1 : rest.length % 2 = 1 := Nat.odd_iff.mp ho
      rw [if_neg (by omega), if_neg (by simp only [List.length_cons]; omega)]
      rfl

theorem matrix_roundtrip_lemma (pk : PassKey) (data : List Nat)
    (h : pkGuard pk) (hdata : ∀ x ∈ data, x < 256) :
    (matrix_encode pk data).bind (matrix_decode pk) =
      .ok (if data.length % 2 = 0 then data else data ++ [0]) := by
  obtain ⟨ha, hb, hc, hd, hdet⟩ := h
  rw [matrix_encode_ok pk data ⟨ha, hb, hc, hd, hdet⟩]
  show matrix_decode pk (encodePairs pk.a pk.b pk.c pk.d data) = _
  unfold matrix_decode
  rw [if_neg (by simp only [Bool.or_eq_true, decide_eq_true_eq, not_or]; omega),
    if_neg (by omega),
    if_neg (by rw [encodePairs_length_even]; omega)]
  exact decodePairs_encodePairs pk.a pk.b pk.c pk.d data hdet hdata

theorem s2e_cons (w : Nat) (ws : List Nat) :
    sixteen_to_eight (w :: ws) =
      w / 256 :: w % 256 :: sixteen_to_eight ws := by
  induction ws generalizing w with
  | nil => rfl
  | cons w1 rest ih =>
    show w / 256 :: w % 256 :: w1 / 256 :: w1 % 256 :: sixteen_to_eight rest = _
    rw [ih w1]

theorem s2e_length (ws : List Nat) :
    (sixteen_to_eight ws).length = 2 * ws.length := by
  induction ws with
  | nil => rfl
  | cons w rest ih =>
    rw [s2e_cons]
    simp only [List.length_cons, ih]
    omega

theorem e2s_s2e (ws : List Nat) :
    eight_to_sixteen (sixteen_to_eight ws) = ws := by
  induction ws with
  | nil => rfl
  | cons w rest ih =>
    rw [s2e_cons]
    cases hr : sixteen_to_eight rest with
    | nil =>
      have hrn : rest = [] := by
        have h2 := s2e_length rest
        rw [hr] at h2
        simp only [List.length_nil] at h2
        exact List.eq_nil_of_length_eq_zero (by omega)
      subst hrn
      show [256 * (w / 256) + w % 256] = [w]
      simp only [List.cons.injEq, and_true]
      omega
    | cons b bs =>
      show (256 * (w / 256) + w % 256) :: eight_to_sixteen (b :: bs) = w :: rest
      rw [← hr, ih]
      simp only [List.cons.injEq, and_true]
      omega

theorem e2s_length_getLast (bs : List Nat) (hodd : bs.length % 2 = 1) :
    (eight_to_sixteen bs).length = bs.length / 2 + 1 ∧
      (eight_to_sixteen bs).getLast? = bs.getLast? := by
  induction bs using eight_to_sixteen.induct with
  | case1 => simp at hodd
  | case2 b => exact ⟨by simp [eight_to_sixteen], rfl⟩
  | case3 b0 b1 rest ih =>
    have hrest : rest.length % 2 = 1 := by
      simp only [List.length_cons] at hodd
      omega
    obtain ⟨ihl, ihg⟩ := ih hrest
    have hne : rest ≠ [] := by
      intro hc
      rw [hc] at hrest
      simp at hrest
    have hne2 : eight_to_sixteen rest ≠ [] := by
      intro hc
      have h2 : (eight_to_sixteen rest).length = rest.length / 2 + 1 := ihl
      rw [hc] at h2
      simp at h2
    constructor
    · show (eight_to_sixteen (b0 :: b1 :: rest)).length = _
      unfold eight_to_sixteen
      simp only [List.length_cons, ihl]
      omega
    · show ((256 * b0 + b1) :: eight_to_sixteen rest).getLast? = (b0 :: b1 :: rest).getLast?
      obtain ⟨y, ys, hys⟩ := List.exists_cons_of_ne_nil hne2
      obtain ⟨r, rs, hrs⟩ := List.exists_cons_of_ne_nil hne
      rw [hys, List.getLast?_cons_cons, ← hys, ihg, hrs,
        List.getLast?_cons_cons, List.getLast?_cons_cons]

theorem s2e_e2s_even (bs : List Nat) (hb : ∀ x ∈ bs, x < 256)
    (heven : bs.length % 2 = 0) :
    sixteen_to_eight (eight_to_sixteen bs) = bs := by
  induction bs using eight_to_sixteen.induct with
  | case1 => rfl
  | case2 b => simp at heven
  | case3 b0 b1 rest ih =>
    have hrest : rest.length % 2 = 0 := by
      simp only [List.length_cons] at heven
      omega
    have hb1 : b1 < 256 := hb b1 (by simp)
    have hbrest : ∀ x ∈ rest, x < 256 := fun x hx => hb x (by simp [hx])
    show sixteen_to_eight ((256 * b0 + b1) :: eight_to_sixteen rest) = _
    rw [s2e_cons]
    have hdiv : (256 * b0 + b1) / 256 = b0 := by
      rw [Nat.mul_comm 256 b0]
      rw [Nat.add_comm]
      rw [Nat.add_mul_div_right b1 b0 (by omega)]
      rw [Nat.div_eq_of_lt hb1]
      omega
    have hmod : (256 * b0 + b1) % 256 = b1 := by
      rw [Nat.mul_comm 256 b0]
      rw [Nat.add_comm]
      rw [Nat.add_mul_mod_self_right]
      exact Nat.mod_eq_of_lt hb1
    rw [hdiv, hmod, ih hbrest hrest]

theorem s2e_e2s_odd (bs : List Nat) (hb : ∀ x ∈ bs, x < 256)
    (hodd : bs.length % 2 = 1) :
    sixteen_to_eight (eight_to_sixteen bs) =
      bs.dropLast ++ [0] ++ bs.getLast?.toList := by
  induction bs using eight_to_sixteen.induct with
  | case1 => simp at hodd
  | case2 b =>
    have hblt : b < 256 := hb b (by simp)
    show sixteen_to_eight [b] = _
    show [b / 256, b % 256] = _
    rw [Nat.div_eq_of_lt hblt, Nat.mod_eq_of_lt hblt]
    rfl
  | case3 b0 b1 rest ih =>
    have hrest : rest.length % 2 = 1 := by
      simp only [List.length_cons] at hodd
      omega
    have hne : rest ≠ [] := by
      intro hc
      rw [hc] at hrest
      simp at hrest
    have hb1 : b1 < 256 := hb b1 (by simp)
    have hbrest : ∀ x ∈ rest, x < 256 := fun x hx => hb x (by simp [hx])
    show sixteen_to_eight ((256 * b0 + b1) :: eight_to_sixteen rest) = _
    rw [s2e_cons]
    have hdiv : (256 * b0 + b1) / 256 = b0 := by
      rw [Nat.mul_comm 256 b0, Nat.add_comm, Nat.add_mul_div_right b1 b0 (by omega),
        Nat.div_eq_of_lt hb1]
      omega
    have hmod : (256 * b0 + b1) % 256 = b1 := by
      rw [Nat.mul_comm 256 b0, Nat.add_comm, Nat.add_mul_mod_self_right]
      exact Nat.mod_eq_of_lt hb1
    rw [hdiv, hmod, ih hbrest hrest]
    obtain ⟨r, rs, hrs⟩ := List.exists_cons_of_ne_nil hne
    subst hrs
    rw [List.dropLast_cons₂, List.dropLast_cons₂,
      List.getLast?_cons_cons, List.getLast?_cons_cons]
    rfl

open CloudFile

theorem dropWhile_eq_self_of_head (l : List Nat)
    (h : ∀ x, l.head? = some x → wsByte x = false) :
    l.dropWhile wsByte = l := by
  cases l with
  | nil => rfl
  | cons x xs =>
    rw [List.dropWhile_cons, h x rfl]
    simp

theorem trimAscii_eq_self (l : List Nat)
    (hh : ∀ x, l.head? = some x → wsByte x = false)
    (hl : ∀ x, l.getLast? = some x → wsByte x = false) :
    trimAscii l = l := by
  unfold trimAscii
  rw [dropWhile_eq_self_of_head l hh]
  rw [dropWhile_eq_self_of_head l.reverse
    (fun x hx => hl x (by rwa [List.head?_reverse] at hx))]
  exact List.reverse_reverse l

theorem trimAscii_append_zeros (w : List Nat) (k : Nat)
    (hh : ∀ x, w.head? = some x → wsByte x = false)
    (hl : ∀ x, w.getLast? = some x → wsByte x = false) :
    trimAscii (w ++ List.replicate k 0) = w ++ List.replicate k 0 := by
  apply trimAscii_eq_self
  · intro x hx
    cases w with
    | nil =>
      rw [List.nil_append] at hx
      cases k with
      | zero => cases hx
      | succ n =>
        rw [List.replicate_succ, List.head?_cons] at hx
        injection hx with hx2
        rw [← hx2]
        rfl
    | cons a as =>
      rw [List.cons_append, List.head?_cons] at hx
      injection hx with hx2
      exact hx2 ▸ hh a rfl
  · intro x hx
    cases k with
    | zero =>
      rw [List.replicate_zero, List.append_nil] at hx
      exact hl x hx
    | succ n =>
      have hrep : List.replicate (n + 1) (0 : Nat) = List.replicate n 0 ++ [0] :=
        List.replicate_succ' n 0
      rw [hrep, ← List.append_assoc, List.getLast?_concat] at hx
      injection hx with hx2
      rw [← hx2]
      rfl

theorem assembleContainer_eq (pk : PassKey) (ws : List Nat) :
    assembleContainer pk ws =
      3 :: 3 :: 4 :: 21 :: 7 :: 23 :: 10 :: 8 :: pk.a :: pk.b :: pk.c :: pk.d ::
        25 :: 0 :: 0 :: 3 :: sixteen_to_eight ws := by
  simp [assembleContainer, magicA, magicB, pkBytes, trailerBytes]

theorem pkOf_assemble (pk : PassKey) (ws : List Nat) :
    pkOf (assembleContainer pk ws) = pk := by
  rw [assembleContainer_eq]
  rfl

theorem assemble_drop16 (pk : PassKey) (ws : List Nat) :
    (assembleContainer pk ws).drop 16 = sixteen_to_eight ws := by
  rw [assembleContainer_eq]
  rfl

theorem assemble_take4 (pk : PassKey) (ws : List Nat) :
    (assembleContainer pk ws).take 4 = magicA := by
  rw [assembleContainer_eq]
  rfl

theorem assemble_length (pk : PassKey) (ws : List Nat) :
    (assembleContainer pk ws).length = 16 + 2 * ws.length := by
  rw [assembleContainer_eq]
  simp only [List.length_cons, s2e_length]
  omega

theorem baseRegion_length (uid token dirid : List Nat)
    (h : uid.length + token.length + dirid.length + 2 ≤ 64) :
    (baseRegion uid token dirid).length = 64 := by
  unfold baseRegion
  simp only [List.length_append, List.length_cons, List.length_replicate]
  omega

theorem update_inner_ok (s : CloudFile)
    (hlen : 144 ≤ s.inner.length) (hpk : pkGuard (pkOf s.inner)) :
    ∃ d, CloudFile.update_inner s = .ok { s with inner := d } := by
  refine ⟨assembleContainer (pkOf s.inner)
    (encodePairs (pkOf s.inner).a (pkOf s.inner).b (pkOf s.inner).c
      (pkOf s.inner).d
      (baseRegion s.uid s.token s.dirid ++ listRegion s.filemap)), ?_⟩
  unfold CloudFile.update_inner
  rw [if_neg (by omega)]
  rw [matrix_encode_ok _ _ hpk]
  rfl

theorem update_inner_fields (s s2 : CloudFile)
    (h : CloudFile.update_inner s = .ok s2) :
    s2.filemap = s.filemap ∧ s2.stream = s.stream ∧ s2.uid = s.uid ∧
      s2.token = s.token ∧ s2.dirid = s.dirid := by
  unfold CloudFile.update_inner at h
  by_cases hlen : s.inner.length < 144
  · rw [if_pos hlen] at h
    cases h
  · rw [if_neg hlen] at h
    cases he : matrix_encode (pkOf s.inner)
        (CloudFile.baseRegion s.uid s.token s.dirid ++
          CloudFile.listRegion s.filemap) with
    | error e =>
      rw [he] at h
      cases h
    | ok ws =>
      rw [he] at h
      injection h with h2
      rw [← h2]
      exact ⟨rfl, rfl, rfl, rfl, rfl⟩

theorem baseRegion_bytes_lt (uid token dirid : List Nat)
    (h : ∀ x ∈ uid ++ token ++ dirid, x < 256) :
    ∀ x ∈ baseRegion uid token dirid, x < 256 := by
  intro x hx
  unfold baseRegion at hx
  rcases List.mem_append.mp hx with h1 | h2
  · rcases List.mem_append.mp h1 with h12 | hc
    · rcases List.mem_append.mp h12 with hu | hct
      · exact h x (List.mem_append.mpr (Or.inl (List.mem_append.mpr (Or.inl hu))))
      · rcases List.mem_cons.mp hct with rfl | ht
        · omega
        · exact h x (List.mem_append.mpr (Or.inl (List.mem_append.mpr (Or.inr ht))))
    · rcases List.mem_cons.mp hc with rfl | hd2
      · omega
      · exact h x (List.mem_append.mpr (Or.inr hd2))
  · have h3 := (List.mem_replicate.mp h2).2
    omega

theorem matrix_decode_encodePairs (pk : PassKey) (data : List Nat)
    (hpk : pkGuard pk) (hdata : ∀ x ∈ data, x < 256) :
    matrix_decode pk (encodePairs pk.a pk.b pk.c pk.d data) =
      .ok (if data.length % 2 = 0 then data else data ++ [0]) := by
  have h2 := matrix_roundtrip_lemma pk data hpk hdata
  rw [matrix_encode_ok _ _ hpk] at h2
  exact h2

theorem baseRegion_split (uid token dirid : List Nat)
    (huid : 27 ∉ uid) (htok : 27 ∉ token) (_hdir : 27 ∉ dirid) :
    splitn3 27 (baseRegion uid token dirid) =
      [uid, token,
        dirid ++ padTo64 (uid.length + token.length + dirid.length + 2)] := by
  have hlen2 : (uid ++ 27 :: token ++ 27 :: dirid).length =
      uid.length + token.length + dirid.length + 2 := by
    simp only [List.length_append, List.length_cons]
    omega
  have hshape : baseRegion uid token dirid =
      uid ++ 27 :: (token ++ 27 :: (dirid ++
        padTo64 (uid.length + token.length + dirid.length + 2))) := by
    unfold baseRegion padTo64
    rw [hlen2]
    simp
  have h1 : splitOnceByte 27 (uid ++ 27 :: (token ++ 27 :: (dirid ++
      padTo64 (uid.length + token.length + dirid.length + 2)))) =
      some (uid, token ++ 27 :: (dirid ++
        padTo64 (uid.length + token.length + dirid.length + 2))) :=
    splitOnceByte_append 27 uid _ huid
  have h2 : splitOnceByte 27 (token ++ 27 :: (dirid ++
      padTo64 (uid.length + token.length + dirid.length + 2))) =
      some (token, dirid ++
        padTo64 (uid.length + token.length + dirid.length + 2)) :=
    splitOnceByte_append 27 token _ htok
  rw [hshape]
  unfold splitn3
  simp only [h1, h2]

theorem from_raw_new_lemma (uid token dirid : List Nat) (pk : PassKey)
    (hpk : pkGuard pk)
    (hbytes : ∀ x ∈ uid ++ token ++ dirid, x < 256)
    (hlen : uid.length + token.length + dirid.length + 2 ≤ 64)
    (huid : 27 ∉ uid) (htok : 27 ∉ token) (hdir : 27 ∉ dirid)
    (huh : ∀ x, uid.head? = some x → wsByte x = false)
    (hul : ∀ x, uid.getLast? = some x → wsByte x = false)
    (hth : ∀ x, token.head? = some x → wsByte x = false)
    (htl : ∀ x, token.getLast? = some x → wsByte x = false)
    (hdh : ∀ x, dirid.head? = some x → wsByte x = false)
    (hdl : ∀ x, dirid.getLast? = some x → wsByte x = false) :
    ∃ s, CloudFile.new uid token dirid pk = .ok s ∧
      CloudFile.from_raw s.inner =
        .ok ⟨s.inner, none, uid, token,
          dirid ++ padTo64 (uid.length + token.length + dirid.length + 2),
          []⟩ := by
  have hblen : (baseRegion uid token dirid).length = 64 :=
    baseRegion_length uid token dirid hlen
  have hbbytes := baseRegion_bytes_lt uid token dirid hbytes
  have heven : (baseRegion uid token dirid).length % 2 = 0 := by
    rw [hblen]
  have hws := matrix_encode_ok pk (baseRegion uid token dirid) hpk
  have hnew : CloudFile.new uid token dirid pk =
      .ok ⟨assembleContainer pk (encodePairs pk.a pk.b pk.c pk.d
        (baseRegion uid token dirid)), none, uid, token, dirid, []⟩ := by
    unfold CloudFile.new
    rw [hws]
    rfl
  refine ⟨_, hnew, ?_⟩
  show CloudFile.from_raw (assembleContainer pk (encodePairs pk.a pk.b pk.c
    pk.d (baseRegion uid token dirid))) = _
  have hwlen : (encodePairs pk.a pk.b pk.c pk.d
      (baseRegion uid token dirid)).length = 64 := by
    rw [encodePairs_length, hblen]
    rfl
  have hdec : matrix_decode pk (encodePairs pk.a pk.b pk.c pk.d
      (baseRegion uid token dirid)) = .ok (baseRegion uid token dirid) := by
    rw [matrix_decode_encodePairs pk _ hpk hbbytes, if_pos heven]
  unfold CloudFile.from_raw
  rw [if_neg (by rw [assemble_length, hwlen]; omega)]
  rw [assemble_take4]
  rw [if_neg (by simp)]
  rw [assemble_drop16, e2s_s2e, pkOf_assemble, hdec]
  have hdrop : (baseRegion uid token dirid).drop 64 = [] := by
    apply List.eq_nil_of_length_eq_zero
    rw [List.length_drop, hblen]
  have htake : (baseRegion uid token dirid).take 64 =
      baseRegion uid token dirid := by
    conv_lhs => rw [← hblen]
    exact List.take_length _
  show (if (baseRegion uid token dirid).length < 64 then
      (Except.error ⟨ErrKind.panic, none⟩ : Except Err CloudFile) else _) = _
  rw [if_neg (by rw [hblen]; omega)]
  rw [hdrop, htake]
  rw [if_pos (show (List.isEmpty ([] : List Nat)) = true from rfl)]
  rw [baseRegion_split uid token dirid huid htok hdir]
  have htu : trimAscii uid = uid := trimAscii_eq_self uid huh hul
  have htt : trimAscii token = token := trimAscii_eq_self token hth htl
  have htd := trimAscii_append_zeros dirid
    (64 - (uid.length + token.length + dirid.length + 2)) hdh hdl
  have hmap : ∀ (f : List (List Nat × List Nat) → CloudFile),
      Except.map f
          (Except.ok [] : Except Err (List (List Nat × List Nat))) =
        Except.ok (f []) := fun f => rfl
  rw [hmap]
  simp only [List.getD_cons_zero, List.getD_cons_succ]
  rw [htu, htt]
  unfold padTo64 at htd ⊢
  rw [htd]

theorem scanRecords_appends (files : List (List Nat))
    (fm : List (List Nat × List Nat)) (resid : List (List Nat)) :
    ∃ app, (CloudFile.scanRecords files fm resid).1 = fm ++ app ∧
      ((CloudFile.scanRecords files fm resid).2.2 = none →
        app.length = files.length) := by
  induction files generalizing fm resid with
  | nil => exact ⟨[], by simp [CloudFile.scanRecords], by simp⟩
  | cons f rest ih =>
    unfold CloudFile.scanRecords
    cases h1 : CloudFile.extractField CloudFile.objectIdPat 12 f with
    | error e => exact ⟨[], by simp, by simp⟩
    | ok objid =>
      cases h2 : CloudFile.extractField CloudFile.namePat 8 f with
      | error e => exact ⟨[], by simp, by simp⟩
      | ok name =>
        cases h3 : CloudFile.extractField CloudFile.residPat 12 f with
        | error e =>
          exact ⟨[(name, objid)], by simp, by simp⟩
        | ok r =>
          obtain ⟨app, happ, hlen⟩ := ih (fm ++ [(name, objid)]) (resid ++ [r])
          refine ⟨(name, objid) :: app, ?_, ?_⟩
          · rw [happ]
            simp
          · intro hnone
            have := hlen hnone
            simp only [List.length_cons, this, List.length_cons]

theorem scanParse_appends (fm : List (List Nat × List Nat)) (data : List Nat) :
    ∃ app, (CloudFile.scanParse fm data).1 = fm ++ app := by
  unfold CloudFile.scanParse
  by_cases hde : containsSub CloudFile.dataEmptyPat data = true
  · rw [if_pos hde]
    exact ⟨[], by simp⟩
  · rw [if_neg hde]
    cases h1 : findSub [91, 123] data with
    | none => exact ⟨[], by simp⟩
    | some st =>
      cases h2 : findSub [125, 93] data with
      | none => exact ⟨[], by simp⟩
      | some en =>
        by_cases h3 : st + 2 ≤ en
        · obtain ⟨app, happ, -⟩ := scanRecords_appends
            (splitSeq 125 [44, 123] ((data.take en).drop (st + 2))) fm []
          exact ⟨app, by simpa [h3] using happ⟩
        · exact ⟨[], by simp [h3]⟩

/-- Claim C1, counterexample: with the valid passkey [1,0,0,1] and the
odd-length input [1], decode of encode yields [1, 0], not [1] — the claimed
round-trip identity fails for odd-length data. -/
theorem c1_odd_counterexample :
    pkGuard pk1 ∧
      (matrix_encode pk1 [1]).bind (matrix_decode pk1) = .ok [1, 0] ∧
      (Except.ok [1, 0] : Except Err (List Nat)) ≠ .ok [1] := by
  decide

/-- Claim C1, amended: for every passkey passing both guards and every byte
sequence, decode of encode returns the data itself when the length is even,
and the data with one zero byte appended when the length is odd (so the
claimed identity holds exactly for even-length data, the empty sequence
included). -/
theorem c1_matrix_roundtrip (pk : PassKey) (data : List Nat)
    (hpk : pkGuard pk) (hdata : ∀ x ∈ data, x < 256) :
    (matrix_encode pk data).bind (matrix_decode pk) =
      .ok (if data.length % 2 = 0 then data else data ++ [0]) :=
  matrix_roundtrip_lemma pk data hpk hdata

/-- Witness for c1_matrix_roundtrip at passkey [1,0,0,1] and data [5,6]. -/
theorem c1_matrix_roundtrip_witness :
    pkGuard pk1 ∧ (∀ x ∈ [5, 6], x < 256) ∧
      (matrix_encode pk1 [5, 6]).bind (matrix_decode pk1) = .ok [5, 6] := by
  refine ⟨by decide, by decide, ?_⟩
  have h := c1_matrix_roundtrip pk1 [5, 6] (by decide) (by decide)
  simpa using h

/-- Claim C8: whenever some passkey component exceeds 128 or the
determinant test a*d ≤ b*c holds, both matrix_encode and matrix_decode
return the InvalidInput error on every input; and for a passkey passing
both guards, matrix_decode returns the InvalidInput error on every
odd-length word sequence. -/
theorem c8_passkey_guards (pk : PassKey) (data ws : List Nat) :
    ((128 < pk.a ∨ 128 < pk.b ∨ 128 < pk.c ∨ 128 < pk.d ∨
        pk.a * pk.d ≤ pk.b * pk.c) →
      matrix_encode pk data = .error ⟨.invalidInput, none⟩ ∧
        matrix_decode pk ws = .error ⟨.invalidInput, none⟩) ∧
    (pkGuard pk → ws.length % 2 = 1 →
      matrix_decode pk ws = .error ⟨.invalidInput, none⟩) := by
  constructor
  · intro hbad
    by_cases h1 : 128 < pk.a ∨ 128 < pk.b ∨ 128 < pk.c ∨ 128 < pk.d
    · have hb : (pk.a > 128 || pk.b > 128 || pk.c > 128 || pk.d > 128) = true := by
        simp only [Bool.or_eq_true, decide_eq_true_eq]
        tauto
      unfold matrix_encode matrix_decode
      rw [if_pos hb, if_pos hb]
      exact ⟨rfl, rfl⟩
    · have h2 : pk.a * pk.d ≤ pk.b * pk.c := by
        rcases hbad with h | h | h | h | h
        · exact absurd (Or.inl h) h1
        · exact absurd (Or.inr (Or.inl h)) h1
        · exact absurd (Or.inr (Or.inr (Or.inl h))) h1
        · exact absurd (Or.inr (Or.inr (Or.inr h))) h1
        · exact h
      have hb : (pk.a > 128 || pk.b > 128 || pk.c > 128 || pk.d > 128) = false := by
        simp only [Bool.or_eq_false_iff, decide_eq_false_iff_not]
        push_neg at h1
        omega
      unfold matrix_encode matrix_decode
      rw [if_neg (by rw [hb]; simp), if_pos h2,
        if_neg (by rw [hb]; simp), if_pos h2]
      exact ⟨rfl, rfl⟩
  · intro hg hodd
    obtain ⟨ha, hb2, hc, hd, hdet⟩ := hg
    unfold matrix_decode
    rw [if_neg (by simp only [Bool.or_eq_true, decide_eq_true_eq, not_or]; omega),
      if_neg (by omega), if_pos hodd]

/-- Witness for c8_passkey_guards: component 129 > 128 makes encode and
decode fail on [7]; the valid passkey [2,1,1,1] makes decode fail on the
odd-length [7]. -/
theorem c8_passkey_guards_witness :
    matrix_encode ⟨129, 0, 0, 1⟩ [7] = .error ⟨.invalidInput, none⟩ ∧
      matrix_decode ⟨129, 0, 0, 1⟩ [7] = .error ⟨.invalidInput, none⟩ ∧
      matrix_decode ⟨2, 1, 1, 1⟩ [7] = .error ⟨.invalidInput, none⟩ := by
  refine ⟨?_, ?_, ?_⟩
  · exact ((c8_passkey_guards ⟨129, 0, 0, 1⟩ [7] [7]).1 (by decide)).1
  · exact ((c8_passkey_guards ⟨129, 0, 0, 1⟩ [7] [7]).1 (by decide)).2
  · exact (c8_passkey_guards ⟨2, 1, 1, 1⟩ [7] [7]).2 (by decide) (by decide)

/-- Claim C9: for an odd-length byte sequence of length 2k+1,
eight_to_sixteen yields k+1 words ending in the final byte zero-extended;
sixteen_to_eight of that has length 2k+2 and equals the first 2k bytes,
then a zero byte, then the final byte — so the odd round trip never
reproduces the input, while the even-length round trip is the identity. -/
theorem c9_pack_asymmetry (bs : List Nat) (hb : ∀ x ∈ bs, x < 256) :
    (bs.length % 2 = 1 →
      (eight_to_sixteen bs).length = bs.length / 2 + 1 ∧
      (eight_to_sixteen bs).getLast? = bs.getLast? ∧
      sixteen_to_eight (eight_to_sixteen bs) =
        bs.dropLast ++ [0] ++ bs.getLast?.toList ∧
      (sixteen_to_eight (eight_to_sixteen bs)).length = bs.length + 1 ∧
      sixteen_to_eight (eight_to_sixteen bs) ≠ bs) ∧
    (bs.length % 2 = 0 → sixteen_to_eight (eight_to_sixteen bs) = bs) := by
  constructor
  · intro hodd
    obtain ⟨hl, hg⟩ := e2s_length_getLast bs hodd
    refine ⟨hl, hg, s2e_e2s_odd bs hb hodd, ?_, ?_⟩
    · rw [s2e_length, hl]
      omega
    · intro hc
      have h2 := congrArg List.length hc
      rw [s2e_length, hl] at h2
      omega
  · exact s2e_e2s_even bs hb

/-- Witness for c9_pack_asymmetry at [1,2,3]: the words are [258, 3] and
the round trip gives [1,2,0,3]. -/
theorem c9_pack_asymmetry_witness :
    (∀ x ∈ [1, 2, 3], x < 256) ∧
      sixteen_to_eight (eight_to_sixteen [1, 2, 3]) = [1, 2, 0, 3] := by
  refine ⟨by decide, ?_⟩
  have h := ((c9_pack_asymmetry [1, 2, 3] (by decide)).1 (by decide)).2.2.1
  rw [h]
  decide

/-- Claim C10: the passkey [2,1,1,1] passes both guards, yet decoding the
even-length word sequence [0,1] (which is not the encoding of any byte
sequence) underflows the u32 subtraction d*w0 - b*w1 — a panic in debug
builds (wrapping in release), modelled as the panic outcome. -/
theorem c10_decode_underflow :
    pkGuard ⟨2, 1, 1, 1⟩ ∧ [0, 1].length % 2 = 0 ∧ (∀ w ∈ [0, 1], w < 65536) ∧
      matrix_decode ⟨2, 1, 1, 1⟩ [0, 1] = .error ⟨.panic, none⟩ := by
  decide

/-- Claim C2 (code bug): a 144-byte container whose first magic field is
corrupted (first byte 9 instead of 3) but whose second magic field is
intact is ACCEPTED by from_raw, because the source combines the two magic
comparisons with a logical AND (it rejects only when BOTH fields
mismatch), while the spec requires rejection when either field is
altered. -/
theorem c2_magic_and_accepts :
    c2raw.length = 144 ∧ c2raw.take 4 ≠ magicA ∧
      (c2raw.drop 4).take 4 = magicB ∧
      isOkE (CloudFile.from_raw c2raw) = true := by
  decide

/-- Claim C3, counterexample: with passkey [1,0,0,1] and the 65-byte
plaintext of zeros (length ≥ 64 but odd), parsing the assembled container
returns 66 zero bytes, not the original 65 — the claimed round trip fails
for odd-length plaintext. -/
theorem c3_odd_counterexample :
    pkGuard pk1 ∧ 64 ≤ (List.replicate 65 (0 : Nat)).length ∧
      (CloudFile.assemblePlain pk1 (List.replicate 65 0)).bind
        CloudFile.parseContainer = .ok (pk1, List.replicate 66 0) ∧
      List.replicate 66 0 ≠ List.replicate 65 (0 : Nat) := by
  decide

/-- Claim C3, amended: for every passkey passing both guards and every
plaintext of EVEN length at least 64 with bytes < 256, parsing the
assembled container yields exactly the original passkey and plaintext
(for odd lengths the parse yields the plaintext with a zero byte
appended, as the counterexample shows). -/
theorem c3_container_roundtrip (pk : PassKey) (pt : List Nat)
    (hpk : pkGuard pk) (hpt : ∀ x ∈ pt, x < 256)
    (hlen : 64 ≤ pt.length) (heven : pt.length % 2 = 0) :
    (CloudFile.assemblePlain pk pt).bind CloudFile.parseContainer =
      .ok (pk, pt) := by
  unfold CloudFile.assemblePlain
  rw [matrix_encode_ok _ _ hpk]
  show CloudFile.parseContainer (assembleContainer pk
    (encodePairs pk.a pk.b pk.c pk.d pt)) = _
  have hwlen : (encodePairs pk.a pk.b pk.c pk.d pt).length = pt.length := by
    rw [encodePairs_length, if_pos heven]
  have hdec : matrix_decode pk (encodePairs pk.a pk.b pk.c pk.d pt) =
      .ok pt := by
    rw [matrix_decode_encodePairs pk pt hpk hpt, if_pos heven]
  unfold CloudFile.parseContainer
  rw [if_neg (by rw [assemble_length, hwlen]; omega)]
  rw [assemble_take4]
  rw [if_neg (by simp)]
  rw [assemble_drop16, e2s_s2e, pkOf_assemble, hdec]
  rfl

/-- Witness for c3_container_roundtrip at passkey [1,0,0,1] and a 64-byte
plaintext of ones. -/
theorem c3_container_roundtrip_witness :
    pkGuard pk1 ∧ 64 ≤ (List.replicate 64 (1 : Nat)).length ∧
      (List.replicate 64 (1 : Nat)).length % 2 = 0 ∧
      (CloudFile.assemblePlain pk1 (List.replicate 64 1)).bind
        CloudFile.parseContainer = .ok (pk1, List.replicate 64 1) := by
  refine ⟨by decide, by decide, by decide, ?_⟩
  exact c3_container_roundtrip pk1 (List.replicate 64 1) (by decide)
    (by decide) (by decide) (by decide)

/-- Claim C4, counterexample: building a catalog from three empty
credential strings with passkey [1,0,0,1] and re-loading it yields a
dirid field of 62 NUL bytes, not the original empty string — Rust's trim
removes only whitespace, and NUL is not whitespace, so the zero-byte
right-padding of the base region is NOT removed. -/
theorem c4_padding_counterexample :
    Except.map CloudFile.dirid
        ((CloudFile.new [] [] [] pk1).bind
          (fun s => CloudFile.from_raw s.inner)) =
      .ok (List.replicate 62 0) ∧
      List.replicate 62 0 ≠ ([] : List Nat) := by
  decide

/-- Claim C4, amended: for ASCII credentials free of the 0x1B/0x1A
separators, with no leading or trailing whitespace and a joined length of
at most 64, loading the container built by new recovers uid and token
exactly and an empty filemap, but the dirid field comes back with the
zero-byte right-padding still attached (dirid ++ (64 - joined) zero
bytes); it equals the original dirid exactly when the joined length is
exactly 64. -/
theorem c4_catalog_roundtrip (uid token dirid : List Nat) (pk : PassKey)
    (hpk : pkGuard pk)
    (hascii : ∀ x ∈ uid ++ token ++ dirid, x < 128)
    (hsep : ∀ x ∈ uid ++ token ++ dirid, x ≠ 27 ∧ x ≠ 26)
    (hlen : uid.length + token.length + dirid.length + 2 ≤ 64)
    (hhead : ∀ l ∈ [uid, token, dirid],
      l.head?.all (fun x => !wsByte x) = true)
    (hlast : ∀ l ∈ [uid, token, dirid],
      l.getLast?.all (fun x => !wsByte x) = true) :
    ∃ s, CloudFile.new uid token dirid pk = .ok s ∧
      CloudFile.from_raw s.inner =
        .ok ⟨s.inner, none, uid, token,
          dirid ++ padTo64 (uid.length + token.length + dirid.length + 2),
          []⟩ := by
  have hopt : ∀ (l : List Nat), l.head?.all (fun x => !wsByte x) = true →
      ∀ x, l.head? = some x → wsByte x = false := by
    intro l hall x hx
    rw [hx] at hall
    simp only [Option.all_some] at hall
    cases hws : wsByte x
    · rfl
    · rw [hws] at hall
      cases hall
  have hoptl : ∀ (l : List Nat), l.getLast?.all (fun x => !wsByte x) = true →
      ∀ x, l.getLast? = some x → wsByte x = false := by
    intro l hall x hx
    rw [hx] at hall
    simp only [Option.all_some] at hall
    cases hws : wsByte x
    · rfl
    · rw [hws] at hall
      cases hall
  apply from_raw_new_lemma uid token dirid pk hpk
  · intro x hx
    have := hascii x hx
    omega
  · exact hlen
  · intro hc
    exact (hsep 27 (List.mem_append.mpr (Or.inl
      (List.mem_append.mpr (Or.inl hc))))).1 rfl
  · intro hc
    exact (hsep 27 (List.mem_append.mpr (Or.inl
      (List.mem_append.mpr (Or.inr hc))))).1 rfl
  · intro hc
    exact (hsep 27 (List.mem_append.mpr (Or.inr hc))).1 rfl
  · exact hopt uid (hhead uid (by simp))
  · exact hoptl uid (hlast uid (by simp))
  · exact hopt token (hhead token (by simp))
  · exact hoptl token (hlast token (by simp))
  · exact hopt dirid (hhead dirid (by simp))
  · exact hoptl dirid (hlast dirid (by simp))

/-- Witness for c4_catalog_roundtrip at uid "ab", token "c", dirid "de",
passkey [1,0,0,1] (joined length 7, so 57 zero bytes of padding). -/
theorem c4_catalog_roundtrip_witness :
    ∃ s, CloudFile.new [97, 98] [99] [100, 101] pk1 = .ok s ∧
      CloudFile.from_raw s.inner =
        .ok ⟨s.inner, none, [97, 98], [99], [100, 101] ++ padTo64 7, []⟩ :=
  c4_catalog_roundtrip [97, 98] [99] [100, 101] pk1 (by decide) (by decide)
    (by decide) (by decide) (by decide) (by decide)

/-- Claim C5: with a live stream, a well-formed container and a response
whose body has the result flag true and an empty data list (zero new
entries), scan disconnects the stream (sets it to None), leaves the
filemap and credentials unchanged, and fails with the WriteZero error. -/
theorem c5_scan_converges (s : CloudFile) (host : StreamHost)
    (resp dresp hdr body : List Nat)
    (hstream : s.stream = some host)
    (hlen : 144 ≤ s.inner.length) (hpk : pkGuard (pkOf s.inner))
    (hsplit : splitOnceSub crlf2 resp = some (hdr, body))
    (hres : containsSub resultTruePat body = true)
    (hempty : containsSub dataEmptyPat body = true) :
    ∃ s2, CloudFile.scan s resp dresp = (s2, .error ⟨.writeZero, none⟩) ∧
      s2.stream = none ∧ s2.filemap = s.filemap ∧
      s2.uid = s.uid ∧ s2.token = s.token ∧ s2.dirid = s.dirid := by
  obtain ⟨d, hupd⟩ := update_inner_ok { s with stream := some host }
    (by simpa using hlen) (by simpa using hpk)
  refine ⟨{ s with inner := d, stream := none }, ?_, rfl, rfl, rfl, rfl, rfl⟩
  unfold CloudFile.scan
  rw [hstream, hsplit]
  simp only [hres, if_true]
  unfold CloudFile.scanParse
  simp only [hempty, if_true]
  unfold CloudFile.delete
  simp only [List.length_nil, if_pos]
  rw [hupd]
  simp

/-- Witness for c5_scan_converges on the concrete session scanSession and
response c5resp (result true, empty data list). -/
theorem c5_scan_converges_witness :
    scanSession.stream = some StreamHost.scanHost ∧
      144 ≤ scanSession.inner.length ∧ pkGuard (pkOf scanSession.inner) ∧
      splitOnceSub crlf2 c5resp = some (c5resp.take 15, c5resp.drop 19) ∧
      containsSub resultTruePat (c5resp.drop 19) = true ∧
      containsSub dataEmptyPat (c5resp.drop 19) = true ∧
      ∃ s2, CloudFile.scan scanSession c5resp [] =
          (s2, .error ⟨.writeZero, none⟩) ∧
        s2.stream = none ∧ s2.filemap = scanSession.filemap ∧
        s2.uid = scanSession.uid ∧ s2.token = scanSession.token ∧
        s2.dirid = scanSession.dirid := by
  refine ⟨rfl, by decide, by decide, by decide, by decide, by decide, ?_⟩
  exact c5_scan_converges scanSession .scanHost c5resp [] (c5resp.take 15)
    (c5resp.drop 19) rfl (by decide) (by decide) (by decide) (by decide)
    (by decide)

/-- Claim C6, counterexample: the response c6resp carries five complete
records (each with objectId, name and residstr) and scan accepts it,
returning Ok 5 — the claimed upper bound of 4 is not enforced by the
code, which never caps the number of parsed records. -/
theorem c6_five_records_counterexample :
    (CloudFile.scan scanSession c6resp c6dresp).2 = .ok 5 ∧ ¬ (5 ≤ 4) := by
  refine ⟨?_, by omega⟩
  decide

/-- Claim C6, amended: whenever scan returns Ok n, the new filemap is the
old filemap with exactly n entries appended and n is at least 1 (nothing
is ever removed or overwritten).  The bound n ≤ 4 holds only when the
server honors the requested page size of 4; the code itself does not
enforce it, as the counterexample with five records shows. -/
theorem c6_scan_count (s : CloudFile) (resp dresp : List Nat) (n : Nat)
    (h : (CloudFile.scan s resp dresp).2 = .ok n) :
    ∃ app, (CloudFile.scan s resp dresp).1.filemap = s.filemap ++ app ∧
      app.length = n ∧ 1 ≤ n := by
  cases hstream : s.stream with
  | none =>
    simp only [CloudFile.scan, hstream] at h
    cases h
  | some host =>
    cases hsplit : splitOnceSub crlf2 resp with
    | none =>
      simp only [CloudFile.scan, hstream, hsplit] at h
      cases h
    | some pr =>
      obtain ⟨hdr, data⟩ := pr
      by_cases hres : containsSub resultTruePat data = true
      · rcases hscanp : CloudFile.scanParse s.filemap data with ⟨fm, resid, e?⟩
        obtain ⟨app, happ⟩ := scanParse_appends s.filemap data
        rw [hscanp] at happ
        simp only at happ
        cases e? with
        | some e =>
          simp only [CloudFile.scan, hstream, hsplit, hres, if_true,
            hscanp] at h
          cases h
        | none =>
          cases hdel : CloudFile.delete { s with stream := some host, filemap := fm } resid dresp with
          | error e =>
            simp only [CloudFile.scan, hstream, hsplit, hres, if_true,
              hscanp, hdel] at h
            cases h
          | ok b =>
            cases hupd : CloudFile.update_inner { s with stream := some host, filemap := fm } with
            | error e =>
              simp only [CloudFile.scan, hstream, hsplit, hres, if_true,
                hscanp, hdel, hupd] at h
              cases h
            | ok s2 =>
              have hfields := update_inner_fields _ _ hupd
              have hfm2 : s2.filemap = fm := by
                rw [hfields.1]
              by_cases htimer : s2.filemap.length = s.filemap.length
              · simp only [CloudFile.scan, hstream, hsplit, hres, if_true,
                  hscanp, hdel, hupd, htimer, if_pos] at h
                cases h
              · simp only [CloudFile.scan, hstream, hsplit, hres, if_true,
                  hscanp, hdel, hupd, if_neg htimer] at h
                injection h with h2
                refine ⟨app, ?_, ?_, ?_⟩
                · simp only [CloudFile.scan, hstream, hsplit, hres, if_true,
                    hscanp, hdel, hupd, if_neg htimer]
                  rw [hfm2, happ]
                · rw [← h2, hfm2, happ]
                  simp only [List.length_append]
                  omega
                · rw [hfm2, happ] at htimer
                  simp only [List.length_append] at htimer
                  rw [← h2, hfm2, happ]
                  simp only [List.length_append]
                  omega
      · simp only [CloudFile.scan, hstream, hsplit, hres] at h
        rw [if_neg (by simp [hres])] at h
        cases h

/-- Witness for c6_scan_count on the concrete five-record response. -/
theorem c6_scan_count_witness :
    (CloudFile.scan scanSession c6resp c6dresp).2 = .ok 5 ∧
      ∃ app, (CloudFile.scan scanSession c6resp c6dresp).1.filemap =
          scanSession.filemap ++ app ∧ app.length = 5 ∧ 1 ≤ 5 := by
  refine ⟨by decide, ?_⟩
  exact c6_scan_count scanSession c6resp c6dresp 5 (by decide)

/-- Claim C7: with a live stream get_link distinguishes exactly three
outcomes on the space-stripped response: a downloadUrl assignment
terminated by the quote-semicolon-CRLF sequence yields Ok of the URL; no
assignment but the not-found marker yields the NotFound error; neither,
with a header/body split present, yields the UnexpectedEof error carrying
the body.  In every case the session (and so its stream) is returned
unchanged — get_link never disconnects. -/
theorem c7_get_link_trichotomy (s : CloudFile) (host : StreamHost)
    (resp pre url rest hdr body : List Nat)
    (hstream : s.stream = some host) :
    (resp.filter (fun b => b != 32) =
        pre ++ linkPat ++ (url ++ linkTermPat ++ rest) →
      (∀ j < pre.length, ¬ occursAt linkPat
        (pre ++ linkPat ++ (url ++ linkTermPat ++ rest)) j) →
      (∀ j < url.length, ¬ occursAt linkTermPat
        (url ++ linkTermPat ++ rest) j) →
      CloudFile.get_link s resp = (s, .ok url)) ∧
    ((∀ i, ¬ occursAt linkPat (resp.filter (fun b => b != 32)) i) →
      containsSub nfMarkerPat (resp.filter (fun b => b != 32)) = true →
      CloudFile.get_link s resp = (s, .error ⟨.notFound, none⟩)) ∧
    ((∀ i, ¬ occursAt linkPat (resp.filter (fun b => b != 32)) i) →
      containsSub nfMarkerPat (resp.filter (fun b => b != 32)) = false →
      resp.filter (fun b => b != 32) = hdr ++ crlf2 ++ body →
      (∀ j < hdr.length, ¬ occursAt crlf2 (hdr ++ crlf2 ++ body) j) →
      CloudFile.get_link s resp = (s, .error ⟨.unexpectedEof, some body⟩)) := by
  refine ⟨?_, ?_, ?_⟩
  · intro hshape hfresh1 hfresh2
    have hfind : findSub linkPat (resp.filter (fun b => b != 32)) =
        some pre.length := by
      rw [hshape]
      exact findSub_first linkPat pre (url ++ linkTermPat ++ rest) hfresh1
    have hdrop : (resp.filter (fun b => b != 32)).drop (pre.length + 16) =
        url ++ linkTermPat ++ rest := by
      rw [hshape]
      have h16 : pre.length + 16 = (pre ++ linkPat).length := by
        simp [linkPat]
      rw [h16]
      exact List.drop_left (pre ++ linkPat) (url ++ linkTermPat ++ rest)
    have hsplit : splitOnceSub linkTermPat
        ((resp.filter (fun b => b != 32)).drop (pre.length + 16)) =
        some (url, rest) := by
      rw [hdrop]
      exact splitOnceSub_first linkTermPat url rest hfresh2
    unfold CloudFile.get_link
    simp only [hstream, hfind, hsplit]
  · intro hnone hmarker
    have hfind : findSub linkPat (resp.filter (fun b => b != 32)) = none :=
      (findSub_eq_none_iff _ _).mpr hnone
    unfold CloudFile.get_link
    simp only [hstream, hfind, hmarker, if_true]
  · intro hnone hmarker hshape hfresh
    have hfind : findSub linkPat (resp.filter (fun b => b != 32)) = none :=
      (findSub_eq_none_iff _ _).mpr hnone
    have hsplit : splitOnceSub crlf2 (resp.filter (fun b => b != 32)) =
        some (hdr, body) := by
      rw [hshape]
      exact splitOnceSub_first crlf2 hdr body hfresh
    unfold CloudFile.get_link
    simp only [hstream, hfind, hmarker, Bool.false_eq_true, if_false, hsplit]

/-- Witness for c7_get_link_trichotomy: the Ok branch on the concrete
response c7resp, whose stripped form carries the assignment of c7url. -/
theorem c7_get_link_trichotomy_witness :
    linkSession.stream = some StreamHost.linkHost ∧
      CloudFile.get_link linkSession c7resp = (linkSession, .ok c7url) := by
  refine ⟨rfl, ?_⟩
  exact (c7_get_link_trichotomy linkSession .linkHost c7resp
    [72, 84, 84, 80, 47, 49, 46, 49, 50, 48, 48, 79, 75, 13, 10, 13, 10,
      102, 111, 111, 13, 10]
    c7url [98, 97, 114] [] [] rfl).1 (by decide) (by decide) (by decide)
